import Mathlib

/-!
Shallow embedding of `src/warship_game.py` (a 10×10 single-player warship
game) and verification of the specification's claims about it.

Boards are Python lists of lists of strings; Python list indexing is
modelled faithfully: an index `i` with `0 ≤ i < len` resolves directly,
`-len ≤ i < 0` wraps to `i + len`, and anything else raises `IndexError`.
Functions that can raise return `Except PyErr _`.
-/

set_option autoImplicit false

namespace Warship

/-- The Python exceptions the embedded functions can raise. -/
inductive PyErr : Type
  | keyError
  | indexError
  | valueError
deriving DecidableEq, Repr

/-- A board is a Python list of rows, each a list of one-character strings. -/
abbrev Board := List (List String)

/-- `TURNS = 35` — defined in the source yet never wired to the turn check. -/
def TURNS : Nat := 35

/-- `SHIPS_LEN = {"A": 5, "B": 4, "S": 3, "D": 3, "P": 2}`. -/
def SHIPS_LEN : List (String × Nat) := [("A", 5), ("B", 4), ("S", 3), ("D", 3), ("P", 2)]

/-- Python dict lookup `SHIPS_LEN[ship]` succeeds iff the key is present. -/
def shipsLen? (ship : String) : Option Nat :=
  (SHIPS_LEN.find? (fun p => p.1 == ship)).map Prod.snd

/-- `generate_board(dim, filler)`: a `dim × dim` board of `filler` cells. -/
def generate_board (dim : Nat := 10) (filler : String := "~") : Board :=
  List.replicate dim (List.replicate dim filler)

/-- Resolve a Python list index against a list of length `len`:
direct for `0 ≤ i < len`, wrapped for `-len ≤ i < 0`, `none` = IndexError. -/
def pyIdx (len : Nat) (i : Int) : Option Nat :=
  if 0 ≤ i ∧ i < (len : Int) then some i.toNat
  else if -(len : Int) ≤ i ∧ i < 0 then some (i + len).toNat
  else none

/-- Python `xs[i]` on a list. -/
def pyNth (xs : List String) (i : Int) : Option String :=
  (pyIdx xs.length i).bind fun j => xs[j]?

/-- Python `board[r]`. -/
def pyRow (b : Board) (r : Int) : Option (List String) :=
  (pyIdx b.length r).bind fun j => b[j]?

/-- Python `board[r][c]`. -/
def pyGetCell (b : Board) (r c : Int) : Option String :=
  (pyRow b r).bind fun row => pyNth row c

/-- Python `board[r][c] = v` (the row object is mutated in place, so the
board seen through the outer list carries the updated row). -/
def pySetCell (b : Board) (r c : Int) (v : String) : Option Board :=
  (pyIdx b.length r).bind fun ri =>
    b[ri]?.bind fun row =>
      (pyIdx row.length c).map fun ci => b.set ri (row.set ci v)

/-- The occupancy loop of `validate_bounds`: walk the run's cells in order,
returning `False` at the first non-filler cell (IndexError propagates). -/
def runClear (b : Board) (filler : String) : List (Int × Int) → Except PyErr Bool
  | [] => .ok true
  | (r, c) :: rest =>
    match pyGetCell b r c with
    | none => .error .indexError
    | some v => if v != filler then .ok false else runClear b filler rest

/-- The cells of a vertical run of length `len` starting at `(row, col)`. -/
def vRun (row col : Int) (len : Nat) : List (Int × Int) :=
  (List.range len).map fun i : Nat => (row + (i : Int), col)

/-- The cells of a horizontal run of length `len` starting at `(row, col)`. -/
def hRun (row col : Int) (len : Nat) : List (Int × Int) :=
  (List.range len).map fun i : Nat => (row, col + (i : Int))

/-- `validate_bounds(board, row, col, ship_len, orientation, filler)`,
with the source's exact `if`/`elif` chain, including the strict `< 10`
comparisons and the final `return True` fall-through. -/
def validate_bounds (board : Board) (row col : Int) (ship_len : Nat)
    (orientation : String) (filler : String := "~") : Except PyErr Bool :=
  if orientation == "v" && decide (row + (ship_len : Int) < 10) then
    match runClear board filler (vRun row col ship_len) with
    | .error e => .error e
    | .ok false => .ok false
    | .ok true => .ok true
  else if orientation == "h" && decide (col + (ship_len : Int) < 10) then
    match runClear board filler (hRun row col ship_len) with
    | .error e => .error e
    | .ok false => .ok false
    | .ok true => .ok true
  else if !(orientation == "h" || orientation == "v") then
    .ok false
  else if decide (10 ≤ row + (ship_len : Int)) || decide (10 ≤ col + (ship_len : Int)) then
    .ok false
  else
    .ok true

/-- The placement write loop: `board[...] = ship` over the run's cells. -/
def writeRun (ship : String) : Board → List (Int × Int) → Option Board
  | b, [] => some b
  | b, (r, c) :: rest => (pySetCell b r c ship).bind fun b2 => writeRun ship b2 rest

/-- `place_ship(row, col, board, ship, orientation, filler)`.

`SHIPS_LEN[ship]` is looked up first (KeyError on unknown kinds), then
`validate_bounds` runs, then on failure `(False, board.copy())` is
returned (a shallow copy — value-identical to `board`), otherwise the run
is written and `(True, board)` returned; an unrecognized orientation that
somehow passed validation would raise ValueError. -/
def place_ship (row col : Int) (board : Board) (ship : String)
    (orientation : String := "v") (filler : String := "~") :
    Except PyErr (Bool × Board) :=
  match shipsLen? ship with
  | none => .error .keyError
  | some ship_len =>
    match validate_bounds board row col ship_len orientation filler with
    | .error e => .error e
    | .ok valid =>
      if !valid then .ok (false, board)
      else if orientation == "v" then
        match writeRun ship board (vRun row col ship_len) with
        | none => .error .indexError
        | some b2 => .ok (true, b2)
      else if orientation == "h" then
        match writeRun ship board (hRun row col ship_len) with
        | none => .error .indexError
        | some b2 => .ok (true, b2)
      else .error .valueError

/-- One row's contribution to `get_state`, with `enumFrom` exposing the
running column index: the inner `for ci, col in enumerate(row)` loop. -/
def rowTriples (ri : Nat) (k : Nat) (row : List String) : List (String × Int × Int) :=
  (row.enumFrom k).filterMap fun q =>
    if q.2 ≠ "~" then some (q.2, (ri : Int), (q.1 : Int)) else none

/-- `get_state(board, filler)`: the nested `enumerate` loops appending
`(col, ri, ci)` for every non-`"~"` cell, in row-major order. (The
`filler` parameter exists in the source but the comparison is against the
literal `"~"`.) -/
def get_state (board : Board) (filler : String := "~") : List (String × Int × Int) :=
  ((board.enum.map fun p => rowTriples p.1 0 p.2)).flatten

/-- `set_state(board, state)`: write each `(ship, ri, ci)` triple back with
`board[ri][ci] = ship`, no validation of any kind. -/
def set_state (board : Board) : List (String × Int × Int) → Except PyErr Board
  | [] => .ok board
  | (ship, ri, ci) :: rest =>
    match pySetCell board ri ci ship with
    | none => .error .indexError
    | some b2 => set_state b2 rest

/-- `get_turn(board, only)`: one plus the number of cells in `only`
(the source sums the booleans of `e in only` and adds one). -/
def get_turn (board : Board) (only : List String := ["@", "X"]) : Nat :=
  (board.flatten.countP fun e => only.contains e) + 1

/-- `win_condition(board, ignore)`: every cell is a miss, hit or filler. -/
def win_condition (board : Board) (ignore : List String := ["X", "@", "~"]) : Bool :=
  board.flatten.all fun entry => ignore.contains entry

/-- The `ShotCount` of the spec: the number of `Hit` (`"X"`) or `Miss`
(`"@"`) cells; `get_turn` is this plus one. -/
def shot_count (board : Board) : Nat :=
  board.flatten.countP fun e => (["@", "X"] : List String).contains e

/-- The lazy `any(map(check, entries))` of `radar_scan`: cells are read in
entry order, the first ship cell short-circuits to `True`, and the first
bad index raises IndexError. -/
def scanAny (board : Board) (r c : Int) (ignore : List String) :
    List (Int × Int) → Except PyErr Bool
  | [] => .ok false
  | t :: ts =>
    match pyGetCell board (r + t.1) (c + t.2) with
    | none => .error .indexError
    | some v => if ignore.contains v then scanAny board r c ignore ts else .ok true

/-- `radar_scan(board, r, c, ignore)`: the source's `valid` lambda is kept
verbatim — it tests `r + t[0] < 10`, `c + t[0] > -1`, `r + t[1] < 10`,
`c + t[1] > -1`, mixing `t[0]`/`t[1]` between the two coordinates. -/
def radar_scan (board : Board) (r c : Int)
    (ignore : List String := ["@", "X", "~"]) : Except PyErr Bool :=
  let deltas : List Int := [-1, 0, 1]
  let entries := (deltas.flatMap fun t0 => deltas.map fun t1 => (t0, t1)).filter
    fun t => decide (r + t.1 < 10) && decide (c + t.1 > -1) &&
             decide (r + t.2 < 10) && decide (c + t.2 > -1)
  scanAny board r c ignore entries

/-- Outcome of resolving one guess in `game_loop` (lines 368–393). -/
inductive Outcome : Type
  | alreadyTargeted
  | hit
  | miss
  | retry
deriving DecidableEq, Repr

/-- The shot-resolution block of `game_loop`: inspect `board[r][c]`, leave
`"@"`/`"X"` alone, convert a ship cell to `"X"`, a filler cell to `"@"`;
the trailing `else` (re-prompt without a shot) is kept although no cell
value reaches it. -/
def apply_shot (board : Board) (r c : Int) (filler : String := "~") :
    Except PyErr (Outcome × Board) :=
  match pyGetCell board r c with
  | none => .error .indexError
  | some hit_miss =>
    if hit_miss == "@" || hit_miss == "X" then .ok (.alreadyTargeted, board)
    else if hit_miss != filler && hit_miss != "@" then
      match pySetCell board r c "X" with
      | none => .error .indexError
      | some b2 => .ok (.hit, b2)
    else if hit_miss == filler then
      match pySetCell board r c "@" with
      | none => .error .indexError
      | some b2 => .ok (.miss, b2)
    else .ok (.retry, board)

/-- Result of one entry into `game_loop`'s check-then-shoot sequence. -/
inductive StepResult : Type
  | won
  | outOfAmmo
  | shot (o : Outcome) (b : Board)
  | err (e : PyErr)
deriving DecidableEq, Repr

/-- One entry into `game_loop(board, …, turns)`: the win check, then the
`turn == turns` ammo check (with `turn = get_turn board`), then the shot
resolution at the validated coordinate. -/
def game_step (board : Board) (r c : Int) (turns : Nat := 20) : StepResult :=
  if win_condition board then .won
  else if get_turn board == turns then .outOfAmmo
  else
    match apply_shot board r c with
    | .error e => .err e
    | .ok (o, b) => .shot o b

end Warship

namespace Warship

/-! ### Small list lemmas used throughout -/

theorem getD_set_self {α : Type} (a d : α) :
    ∀ (l : List α) (i : Nat), i < l.length → (l.set i a).getD i d = a
  | [], i, h => absurd h (by simp)
  | _ :: _, 0, _ => rfl
  | _ :: xs, i + 1, h => getD_set_self a d xs i (Nat.lt_of_succ_lt_succ h)

theorem getD_set_ne {α : Type} (a d : α) :
    ∀ (l : List α) (i j : Nat), i ≠ j → (l.set i a).getD j d = l.getD j d
  | [], _, _, _ => by simp
  | _ :: _, 0, 0, h => absurd rfl h
  | _ :: _, 0, _ + 1, _ => rfl
  | _ :: _, _ + 1, 0, _ => rfl
  | _ :: xs, i + 1, j + 1, h =>
    getD_set_ne a d xs i j (fun he => h (by rw [he]))

theorem set_getD_self {α : Type} (d : α) :
    ∀ (l : List α) (i : Nat), i < l.length → l.set i (l.getD i d) = l
  | [], i, h => absurd h (by simp)
  | _ :: _, 0, _ => rfl
  | x :: xs, i + 1, h => by
    simpa using set_getD_self d xs i (Nat.lt_of_succ_lt_succ h)

theorem set_append_cons {α : Type} (a b : α) :
    ∀ (l1 l2 : List α), (l1 ++ a :: l2).set l1.length b = l1 ++ b :: l2
  | [], _ => rfl
  | x :: xs, l2 => by simpa using set_append_cons a b xs l2

theorem getD_append_len {α : Type} (a d : α) :
    ∀ (l1 l2 : List α), (l1 ++ a :: l2).getD l1.length d = a
  | [], _ => rfl
  | _ :: xs, l2 => getD_append_len a d xs l2

theorem getElem?_eq_getD {α : Type} (d : α) :
    ∀ (l : List α) (i : Nat), i < l.length → l[i]? = some (l.getD i d)
  | [], i, h => absurd h (by simp)
  | _ :: _, 0, _ => by simp
  | _ :: xs, i + 1, h => by
    simpa using getElem?_eq_getD d xs i (Nat.lt_of_succ_lt_succ h)

/-! ### Resolving Python indices that are in-range naturals -/

theorem pyIdx_natCast (len i : Nat) (h : i < len) : pyIdx len (i : Int) = some i := by
  simp [pyIdx, h]

theorem pyIdx_some_lt {len : Nat} {i : Int} {j : Nat} (h : pyIdx len i = some j) :
    j < len := by
  unfold pyIdx at h
  split at h
  · rename_i hc
    cases h
    omega
  · split at h
    · rename_i hc
      cases h
      omega
    · cases h

/-- `cellN b r c`: the board cell at in-range natural coordinates. -/
def cellN (b : Board) (r c : Nat) : String := (b.getD r []).getD c ""

/-- `setCellN b r c v`: the board with the cell at in-range natural
coordinates replaced. -/
def setCellN (b : Board) (r c : Nat) (v : String) : Board :=
  b.set r ((b.getD r []).set c v)

theorem pyGetCell_nat {b : Board} {r c : Nat}
    (hr : r < b.length) (hc : c < (b.getD r []).length) :
    pyGetCell b (r : Int) (c : Int) = some (cellN b r c) := by
  unfold pyGetCell pyRow pyNth cellN
  rw [pyIdx_natCast _ _ hr, Option.some_bind, getElem?_eq_getD ([] : List String) _ _ hr,
    Option.some_bind, pyIdx_natCast _ _ hc, Option.some_bind,
    getElem?_eq_getD "" _ _ hc]

theorem pySetCell_nat {b : Board} {r c : Nat} (v : String)
    (hr : r < b.length) (hc : c < (b.getD r []).length) :
    pySetCell b (r : Int) (c : Int) v = some (setCellN b r c v) := by
  unfold pySetCell setCellN
  rw [pyIdx_natCast _ _ hr, Option.some_bind, getElem?_eq_getD ([] : List String) _ _ hr,
    Option.some_bind, pyIdx_natCast _ _ hc]
  rfl

theorem length_setCellN (b : Board) (r c : Nat) (v : String) :
    (setCellN b r c v).length = b.length := by
  simp [setCellN]

theorem cellN_setCellN_self {b : Board} {r c : Nat} (v : String)
    (hr : r < b.length) (hc : c < (b.getD r []).length) :
    cellN (setCellN b r c v) r c = v := by
  unfold cellN setCellN
  rw [getD_set_self _ _ _ _ hr, getD_set_self _ _ _ _ hc]

theorem cellN_setCellN_ne {b : Board} {r c r' c' : Nat} (v : String)
    (hne : r ≠ r' ∨ c ≠ c') :
    cellN (setCellN b r c v) r' c' = cellN b r' c' := by
  unfold cellN setCellN
  by_cases hr : r = r'
  · subst hr
    have hc : c ≠ c' := by tauto
    by_cases hlt : r < b.length
    · rw [getD_set_self _ _ _ _ hlt, getD_set_ne _ _ _ _ _ hc]
    · rw [List.set_eq_of_length_le (by omega)]
  · rw [getD_set_ne _ _ _ _ _ hr]

end Warship

namespace Warship

/-! ### Claims C1, C2 (boundary rule and radar bounds, settled against the code) -/

/-- Claim C1. The claim asserts the inclusive bound rule (`col + length <= 10`
for Horizontal), under which placing the patrol boat `"P"` (length 2)
horizontally at `(0,8)` on an empty board must succeed. The code's
`validate_bounds` compares with a strict `< 10`, so the code rejects both
`(0,8)` and `(0,9)`, returning the board unchanged; this theorem evaluates
the code at the claim's own scenario. -/
theorem c1_inclusive_bound_fails_in_code :
    place_ship 0 8 (generate_board 10 "~") "P" "h" "~" =
      .ok (false, generate_board 10 "~") ∧
    place_ship 0 9 (generate_board 10 "~") "P" "h" "~" =
      .ok (false, generate_board 10 "~") := by
  constructor <;> rfl

/-- Claim C2. The claim asserts `radar_scan` reads only in-bounds cells of
the 3×3 block. The code's `valid` lambda mixes `t[0]` and `t[1]` between
the row and column coordinates, so scanning the empty board at `(5,9)`
reaches `board[4][10]` and raises IndexError: the code performs an
out-of-range access exactly where the claim forbids one. -/
theorem c2_radar_scan_goes_out_of_bounds :
    radar_scan (generate_board 10 "~") 5 9 ["@", "X", "~"] =
      .error .indexError := by
  rfl

/-! ### Claim C6: rejected placements return the board unchanged -/

/-- Claim C6. `place_ship` is atomic on rejection: whenever it returns a
`(False, b)` pair — bounds failure, overlap, or unrecognized orientation —
the returned board is exactly the board passed in (the source returns
`board.copy()`, a shallow copy that is value-identical, before any write
of the run is attempted). -/
theorem c6_place_ship_atomic_on_rejection
    (row col : Int) (board : Board) (ship orientation filler : String)
    (b2 : Board)
    (h : place_ship row col board ship orientation filler = .ok (false, b2)) :
    b2 = board := by
  unfold place_ship at h
  split at h
  · exact absurd h (by simp)
  · split at h
    · exact absurd h (by simp)
    · split at h
      · injection h with h1
        exact (congrArg Prod.snd h1).symm
      · split at h
        · split at h
          · exact absurd h (by simp)
          · injection h with h1
            exact absurd (congrArg Prod.fst h1) (by simp)
        · split at h
          · split at h
            · exact absurd h (by simp)
            · injection h with h1
              exact absurd (congrArg Prod.fst h1) (by simp)
          · exact absurd h (by simp)

/-- Witness for C6: the rejected boundary placement of C1's scenario
leaves the empty board untouched. -/
theorem c6_witness : ∃ b2 : Board,
    place_ship 0 9 (generate_board 10 "~") "P" "h" "~" = .ok (false, b2) ∧
    b2 = generate_board 10 "~" := by
  refine ⟨generate_board 10 "~", rfl, ?_⟩
  exact c6_place_ship_atomic_on_rejection 0 9 (generate_board 10 "~") "P" "h" "~"
    (generate_board 10 "~") rfl

end Warship

namespace Warship

/-! ### Claim C10: unknown ship kinds raise KeyError before anything else -/

/-- Claim C10. For every ship string outside the catalog `{A,B,S,D,P}`,
`place_ship` raises KeyError from the `SHIPS_LEN[ship]` lookup for every
board, coordinate and orientation — before any bounds or overlap
validation and before any rejection value can be returned. -/
theorem c10_unknown_ship_raises_key_error
    (row col : Int) (board : Board) (orientation filler ship : String)
    (h : ship ∉ (["A", "B", "S", "D", "P"] : List String)) :
    place_ship row col board ship orientation filler = .error .keyError := by
  have hn : shipsLen? ship = none := by
    unfold shipsLen? SHIPS_LEN
    have hfind : List.find? (fun p => p.1 == ship)
        ([("A", 5), ("B", 4), ("S", 3), ("D", 3), ("P", 2)] : List (String × Nat)) = none := by
      rw [List.find?_eq_none]
      intro p hp heq
      apply h
      have hps : p.1 = ship := by simpa using heq
      fin_cases hp <;> simp_all
    rw [hfind]
    rfl
  unfold place_ship
  rw [hn]

/-- Witness for C10: placing the unknown kind `"Z"` on the empty board
raises KeyError. -/
theorem c10_witness :
    place_ship 0 0 (generate_board 10 "~") "Z" "h" "~" = .error .keyError :=
  c10_unknown_ship_raises_key_error 0 0 (generate_board 10 "~") "h" "~" "Z" (by decide)

/-! ### Claim C3: when the session runs out of ammo -/

/-- `get_turn` is the derived `ShotCount` plus one. -/
theorem get_turn_eq_shot_count (board : Board) :
    get_turn board ["@", "X"] = shot_count board + 1 := rfl

/-- Claim C3, counterexample board: 19 misses (`"@"`) and one intact ship
cell, so `ShotCount = 19`, not 20. -/
def boardNineteen : Board :=
  [List.replicate 10 "@",
   List.replicate 9 "@" ++ ["~"],
   List.replicate 10 "~",
   List.replicate 10 "~",
   List.replicate 10 "~",
   List.replicate 10 "~",
   List.replicate 10 "~",
   List.replicate 10 "~",
   List.replicate 10 "~",
   List.replicate 9 "~" ++ ["A"]]

/-- Claim C3, counterexample. The claim says the session transitions to
`OutOfAmmo` exactly when `ShotCount` has reached 20; on this board
`ShotCount` is 19, the win condition fails, yet the next `game_loop`
entry already transitions to out-of-ammo (the source compares
`get_turn board == turns` with `get_turn = ShotCount + 1`), so the
twentieth shot is never taken. -/
theorem c3_out_of_ammo_at_nineteen_shots :
    shot_count boardNineteen = 19 ∧
    win_condition boardNineteen ["X", "@", "~"] = false ∧
    game_step boardNineteen 2 0 20 = .outOfAmmo := by
  refine ⟨by rfl, by rfl, by rfl⟩

/-- Claim C3, amended: with the default turn limit of 20, a `game_loop`
entry transitions to `OutOfAmmo` exactly when the win condition fails and
`ShotCount` has reached 19 (i.e. `get_turn = ShotCount + 1` equals the
limit); after 19 non-winning shots the 20th call transitions to
`OutOfAmmo` before any 20th shot is resolved. -/
theorem c3_out_of_ammo_iff (board : Board) (r c : Int) :
    game_step board r c 20 = .outOfAmmo ↔
      win_condition board ["X", "@", "~"] = false ∧ shot_count board = 19 := by
  unfold game_step
  have hgt := get_turn_eq_shot_count board
  by_cases hw : win_condition board ["X", "@", "~"] = true
  · rw [if_pos hw]
    constructor
    · intro h; cases h
    · rintro ⟨h1, _⟩
      rw [hw] at h1; cases h1
  · have hw' : win_condition board ["X", "@", "~"] = false := by
      simpa using hw
    rw [if_neg hw]
    by_cases ht : get_turn board ["@", "X"] = 20
    · rw [if_pos (by simp [ht])]
      have hs : shot_count board = 19 := by omega
      simp [hw', hs]
    · rw [if_neg (by simp [ht])]
      have hs : shot_count board ≠ 19 := by omega
      constructor
      · intro h
        cases hap : apply_shot board r c "~" with
        | error e => rw [hap] at h; cases h
        | ok ob => rw [hap] at h; cases h
      · rintro ⟨_, h19⟩
        exact absurd h19 hs

end Warship

namespace Warship

/-- After a Python cell write, reading any cell yields either its old value
or — only when both index pairs resolve to the same physical cell — the
written value, in which case the written position read back pre-write as
the old value. -/
theorem pyGetCell_after_pySetCell
    {b b2 : Board} {r' c' : Int} {x : String}
    (hset : pySetCell b r' c' x = some b2)
    {r c : Int} {v : String} (hget : pyGetCell b r c = some v) :
    pyGetCell b2 r c = some v ∨
      (pyGetCell b2 r c = some x ∧ pyGetCell b r' c' = some v) := by
  unfold pySetCell at hset
  rw [Option.bind_eq_some] at hset
  obtain ⟨ri', hridx', hset⟩ := hset
  rw [Option.bind_eq_some] at hset
  obtain ⟨row', hrow', hset⟩ := hset
  rw [Option.map_eq_some'] at hset
  obtain ⟨ci', hcidx', hb2⟩ := hset
  unfold pyGetCell pyRow pyNth at hget ⊢
  rw [Option.bind_eq_some] at hget
  obtain ⟨row, hrowg, hnth⟩ := hget
  rw [Option.bind_eq_some] at hrowg
  obtain ⟨ri, hridx, hrowi⟩ := hrowg
  rw [Option.bind_eq_some] at hnth
  obtain ⟨ci, hcidx, hvi⟩ := hnth
  subst hb2
  have hlen : (b.set ri' (row'.set ci' x)).length = b.length := by simp
  rw [hlen]
  by_cases hrr : ri' = ri
  · subst hrr
    have hroweq : row' = row := by
      rw [hrowi] at hrow'
      exact (Option.some.inj hrow').symm
    subst hroweq
    have hri'lt : ri' < b.length := pyIdx_some_lt hridx
    have hset? : (b.set ri' (row'.set ci' x))[ri']? = some (row'.set ci' x) :=
      List.getElem?_set_eq_of_lt _ hri'lt
    have hlenrow : (row'.set ci' x).length = row'.length := by simp
    by_cases hcc : ci' = ci
    · subst hcc
      right
      constructor
      · rw [hridx, Option.some_bind, hset?, Option.some_bind, hlenrow, hcidx,
          Option.some_bind]
        exact List.getElem?_set_eq_of_lt _ (pyIdx_some_lt hcidx')
      · rw [hridx', Option.some_bind, hrow', Option.some_bind, hcidx',
          Option.some_bind]
        exact hvi
    · left
      rw [hridx, Option.some_bind, hset?, Option.some_bind, hlenrow, hcidx,
        Option.some_bind, List.getElem?_set_ne hcc]
      exact hvi
  · left
    rw [hridx, Option.some_bind, List.getElem?_set_ne hrr, hrowi, Option.some_bind,
      hcidx, Option.some_bind]
    exact hvi

/-! ### Claim C7: shots are permanent -/

/-- Claim C7. A cell that already reads `"@"` (Miss) or `"X"` (Hit) is
final: shooting it again resolves to `AlreadyTargeted` with the board —
and hence `ShotCount` — unchanged, and no shot at any coordinate
whatsoever (wrapped Python indices included) ever changes that cell's
value. -/
theorem c7_shots_are_permanent (board : Board) (r c : Int) (v : String)
    (hv : pyGetCell board r c = some v) (hvm : v = "@" ∨ v = "X") :
    apply_shot board r c "~" = .ok (.alreadyTargeted, board) ∧
    (∀ (o : Outcome) (b2 : Board), apply_shot board r c "~" = .ok (o, b2) →
        shot_count b2 = shot_count board) ∧
    (∀ (r' c' : Int) (o : Outcome) (b2 : Board),
        apply_shot board r' c' "~" = .ok (o, b2) →
        pyGetCell b2 r c = some v) := by
  have hbeq : (v == "@" || v == "X") = true := by
    rcases hvm with rfl | rfl <;> rfl
  have h1 : apply_shot board r c "~" = .ok (.alreadyTargeted, board) := by
    unfold apply_shot
    rw [hv]
    dsimp only
    rw [if_pos hbeq]
  refine ⟨h1, ?_, ?_⟩
  · intro o b2 h
    rw [h1] at h
    injection h with h2
    rw [(Prod.mk.injEq _ _ _ _).mp h2 |>.2]
  · intro r' c' o b2 h
    unfold apply_shot at h
    cases hg : pyGetCell board r' c' with
    | none => rw [hg] at h; cases h
    | some w =>
      rw [hg] at h
      dsimp only at h
      by_cases hw1 : (w == "@" || w == "X") = true
      · rw [if_pos hw1] at h
        injection h with h2
        rw [← ((Prod.mk.injEq _ _ _ _).mp h2).2]
        exact hv
      · rw [if_neg hw1] at h
        have hwne : w ≠ "@" ∧ w ≠ "X" := by
          constructor <;> intro hcon <;> subst hcon <;> simp at hw1
        by_cases hw2 : (w != "~" && w != "@") = true
        · rw [if_pos hw2] at h
          cases hs : pySetCell board r' c' "X" with
          | none => rw [hs] at h; cases h
          | some b3 =>
            rw [hs] at h
            injection h with h2
            have hb23 : b2 = b3 := ((Prod.mk.injEq _ _ _ _).mp h2).2.symm
            subst hb23
            rcases pyGetCell_after_pySetCell hs hv with hok | ⟨_, hgv⟩
            · exact hok
            · rw [hg] at hgv
              have hwv : w = v := (Option.some.injEq _ _).mp hgv
              rcases hvm with rfl | rfl
              · exact absurd hwv.symm (Ne.symm hwne.1)
              · exact absurd hwv.symm (Ne.symm hwne.2)
        · rw [if_neg hw2] at h
          by_cases hw3 : (w == "~") = true
          · rw [if_pos hw3] at h
            cases hs : pySetCell board r' c' "@" with
            | none => rw [hs] at h; cases h
            | some b3 =>
              rw [hs] at h
              injection h with h2
              have hb23 : b2 = b3 := ((Prod.mk.injEq _ _ _ _).mp h2).2.symm
              subst hb23
              rcases pyGetCell_after_pySetCell hs hv with hok | ⟨_, hgv⟩
              · exact hok
              · rw [hg] at hgv
                have hwv : w = v := (Option.some.injEq _ _).mp hgv
                have hwt : w = "~" := by simpa using hw3
                rcases hvm with rfl | rfl <;> simp_all
          · rw [if_neg hw3] at h
            injection h with h2
            rw [← ((Prod.mk.injEq _ _ _ _).mp h2).2]
            exact hv

/-- Witness for C7: re-shooting the already-missed cell `(0,0)` leaves the
board and the outcome as `AlreadyTargeted`. -/
theorem c7_witness :
    apply_shot ([["@", "~"], ["~", "A"]] : Board) 0 0 "~" =
      .ok (.alreadyTargeted, [["@", "~"], ["~", "A"]]) :=
  (c7_shots_are_permanent [["@", "~"], ["~", "A"]] 0 0 "@" (by rfl) (Or.inl rfl)).1

end Warship

namespace Warship

theorem getD_mem {α : Type} (d : α) :
    ∀ (l : List α) (i : Nat), i < l.length → l.getD i d ∈ l
  | [], i, h => absurd h (by simp)
  | x :: xs, 0, _ => List.mem_cons_self x xs
  | x :: xs, i + 1, h =>
    List.mem_cons_of_mem x (getD_mem d xs i (Nat.lt_of_succ_lt_succ h))

/-! ### Claim C4: what `set_state` actually does with a persisted triple -/

/-- Claim C4, counterexample. The claim says decoding fails with
`CorruptState` whenever a triple carries an unrecognized marker; the code
has no such check: loading the unknown marker `"Z"` at `(3,3)` succeeds
and writes the malformed record into the board silently. -/
theorem c4_unknown_marker_applied_silently :
    set_state (generate_board 10 "~") [("Z", 3, 3)] =
      .ok [List.replicate 10 "~", List.replicate 10 "~", List.replicate 10 "~",
           ["~", "~", "~", "Z", "~", "~", "~", "~", "~", "~"],
           List.replicate 10 "~", List.replicate 10 "~", List.replicate 10 "~",
           List.replicate 10 "~", List.replicate 10 "~", List.replicate 10 "~"] := by
  rfl

/-- The verbatim, validation-free application of persisted triples: one
cell write per record, exactly what `set_state` performs when every
coordinate is a valid index. -/
def applyTriples (board : Board) : List (String × Int × Int) → Board
  | [] => board
  | (ship, ri, ci) :: rest =>
      applyTriples (setCellN board ri.toNat ci.toNat ship) rest

/-- Claim C4, amended: `set_state` performs no validation at all — for any
10×10 board and any triple list whose coordinates lie in `[0,10)`, it
succeeds and writes every triple back verbatim in order, unrecognized
markers included; there is no `CorruptState` failure (a coordinate outside
Python's index range raises a bare IndexError instead). -/
theorem c4_set_state_applies_verbatim (board : Board)
    (state : List (String × Int × Int))
    (hb : board.length = 10) (hrows : ∀ row ∈ board, row.length = 10)
    (hst : ∀ t ∈ state, 0 ≤ t.2.1 ∧ t.2.1 < 10 ∧ 0 ≤ t.2.2 ∧ t.2.2 < 10) :
    set_state board state = .ok (applyTriples board state) := by
  induction state generalizing board with
  | nil => rfl
  | cons t rest ih =>
    obtain ⟨ship, ri, ci⟩ := t
    obtain ⟨h1, h2, h3, h4⟩ := hst _ (List.mem_cons_self _ _)
    dsimp only at h1 h2 h3 h4
    have hrin : ri.toNat < board.length := by omega
    have hrowlen : (board.getD ri.toNat []).length = 10 :=
      hrows _ (getD_mem [] board ri.toNat hrin)
    have hcin : ci.toNat < (board.getD ri.toNat []).length := by omega
    have hpy : pySetCell board ri ci ship =
        some (setCellN board ri.toNat ci.toNat ship) := by
      have hnat := pySetCell_nat (b := board) ship hrin hcin
      rwa [Int.toNat_of_nonneg h1, Int.toNat_of_nonneg h3] at hnat
    show set_state board ((ship, ri, ci) :: rest) = _
    unfold set_state
    rw [hpy]
    refine ih (setCellN board ri.toNat ci.toNat ship) ?_ ?_ ?_
    · rw [length_setCellN, hb]
    · intro row hrow
      rcases List.mem_or_eq_of_mem_set hrow with hmem | heq
      · exact hrows row hmem
      · rw [heq, List.length_set]
        exact hrowlen
    · intro t ht
      exact hst t (List.mem_cons_of_mem _ ht)

/-- Witness for C4's amended claim: two records, one of them the
unrecognized marker `"Z"`, are both applied verbatim. -/
theorem c4_witness :
    set_state (generate_board 10 "~") [("Z", 0, 0), ("@", 9, 9)] =
      .ok (applyTriples (generate_board 10 "~") [("Z", 0, 0), ("@", 9, 9)]) :=
  c4_set_state_applies_verbatim (generate_board 10 "~") [("Z", 0, 0), ("@", 9, 9)]
    (by rfl)
    (fun row hrow => by rw [List.eq_of_mem_replicate hrow]; rfl)
    (by decide)

end Warship

namespace Warship

/-! ### Claim C5: encode/decode round trip -/

theorem set_state_append (s2 : List (String × Int × Int)) :
    ∀ (s1 : List (String × Int × Int)) (b b' : Board),
      set_state b s1 = .ok b' →
      set_state b (s1 ++ s2) = set_state b' s2 := by
  intro s1
  induction s1 with
  | nil =>
    intro b b' h
    injection h with h
    rw [List.nil_append, h]
  | cons t rest ih =>
    intro b b' h
    obtain ⟨ship, ri, ci⟩ := t
    rw [List.cons_append]
    unfold set_state at h
    cases hp : pySetCell b ri ci ship with
    | none => rw [hp] at h; cases h
    | some b2 =>
      rw [hp] at h
      dsimp only at h
      have hstep : set_state b ((ship, ri, ci) :: (rest ++ s2)) =
          set_state b2 (rest ++ s2) := by
        conv_lhs => rw [set_state]
        rw [hp]
      rw [hstep]
      exact ih b2 b' h

/-- Replaying one row's sparse triples over a board whose row `ri` is the
already-rebuilt prefix `rest` followed by fresh filler restores that row. -/
theorem set_state_row (ri : Nat) :
    ∀ (row rest : List String) (b : Board),
      ri < b.length →
      b.getD ri [] = rest ++ List.replicate row.length "~" →
      set_state b (rowTriples ri rest.length row) = .ok (b.set ri (rest ++ row)) := by
  intro row
  induction row with
  | nil =>
    intro rest b hlt hget
    rw [List.length_nil, List.replicate_zero, List.append_nil] at hget
    rw [List.append_nil]
    have hself : b.set ri rest = b := by
      rw [← hget]
      exact set_getD_self [] b ri hlt
    rw [hself]
    rfl
  | cons x xs ih =>
    intro rest b hlt hget
    rw [List.length_cons, List.replicate_succ] at hget
    unfold rowTriples
    rw [List.enumFrom_cons, List.filterMap_cons]
    by_cases hx : x = "~"
    · rw [if_neg (by simp [hx])]
      have hih := ih (rest ++ ["~"]) b hlt (by
        rw [hget, List.append_cons])
      rw [List.length_append, List.length_cons, List.length_nil] at hih
      unfold rowTriples at hih
      rw [hih, hx, ← List.append_cons]
    · rw [if_pos (by simp [hx])]
      have hklen : rest.length < (b.getD ri []).length := by
        rw [hget, List.length_append, List.length_cons]
        omega
      have hpy : pySetCell b (ri : Int) (rest.length : Int) x =
          some (setCellN b ri rest.length x) := pySetCell_nat x hlt hklen
      have hsetrow : (b.getD ri []).set rest.length x =
          rest ++ x :: List.replicate xs.length "~" := by
        rw [hget]
        exact set_append_cons "~" x rest (List.replicate xs.length "~")
      unfold set_state
      rw [hpy]
      dsimp only
      have hih := ih (rest ++ [x])
        (setCellN b ri rest.length x)
        (by rw [length_setCellN]; exact hlt)
        (by
          unfold setCellN
          rw [getD_set_self _ _ _ _ hlt, hsetrow, List.append_cons])
      rw [List.length_append, List.length_cons, List.length_nil] at hih
      unfold rowTriples at hih
      rw [hih]
      unfold setCellN
      rw [hsetrow, List.set_set, ← List.append_cons]

/-- Replaying all rows' triples (row indices counted from `pre.length`)
over the fresh remainder of the board rebuilds it row by row. -/
theorem set_state_rows :
    ∀ (rows : List (List String)) (pre : Board),
      set_state (pre ++ rows.map fun row => List.replicate row.length "~")
        (((rows.enumFrom pre.length).map fun p => rowTriples p.1 0 p.2).flatten) =
        .ok (pre ++ rows) := by
  intro rows
  induction rows with
  | nil =>
    intro pre
    rw [List.map_nil, List.append_nil]
    rfl
  | cons row rest ih =>
    intro pre
    simp only [List.enumFrom_cons, List.map_cons, List.flatten_cons]
    have hb : pre.length <
        (pre ++ List.replicate row.length "~" :: rest.map fun r =>
          List.replicate r.length "~").length := by
      rw [List.length_append, List.length_cons]
      omega
    have hget : (pre ++ List.replicate row.length "~" :: rest.map fun r =>
        List.replicate r.length "~").getD pre.length [] =
        [] ++ List.replicate row.length "~" := by
      rw [List.nil_append]
      exact getD_append_len _ [] pre _
    have h1 := set_state_row pre.length row []
      (pre ++ List.replicate row.length "~" :: rest.map fun r =>
        List.replicate r.length "~") hb hget
    rw [List.length_nil, List.nil_append] at h1
    rw [set_append_cons _ row pre _] at h1
    have h2 := set_state_append
      ((((rest.enumFrom (pre.length + 1)).map fun p => rowTriples p.1 0 p.2)).flatten)
      (rowTriples pre.length 0 row) _ _ h1
    rw [h2]
    have hih := ih (pre ++ [row])
    rw [List.length_append, List.length_cons, List.length_nil] at hih
    rw [List.append_cons pre row (rest.map fun r => List.replicate r.length "~")]
    rw [hih]
    rw [← List.append_cons]

/-- Claim C5. For every 10×10 board, decoding the sparse encoding onto a
fresh all-filler board reproduces the board exactly:
`set_state (generate_board()) (get_state board) = ok board`. -/
theorem c5_decode_encode_round_trip (board : Board)
    (hb : board.length = 10) (hrows : ∀ row ∈ board, row.length = 10) :
    set_state (generate_board 10 "~") (get_state board "~") = .ok board := by
  have hmap : (board.map fun row => List.replicate row.length "~") =
      List.replicate 10 (List.replicate 10 "~") := by
    rw [List.eq_replicate_iff]
    constructor
    · rw [List.length_map, hb]
    · intro y hy
      rw [List.mem_map] at hy
      obtain ⟨row, hrow, hyeq⟩ := hy
      rw [← hyeq, hrows row hrow]
  have hgen : generate_board 10 "~" =
      ([] : Board) ++ board.map fun row => List.replicate row.length "~" := by
    rw [List.nil_append, hmap]
    rfl
  have hes : get_state board "~" =
      ((board.enumFrom ([] : Board).length).map fun p => rowTriples p.1 0 p.2).flatten := rfl
  rw [hgen, hes]
  have := set_state_rows board []
  rw [List.nil_append] at this
  exact this

/-- Witness for C5: a concrete 10×10 board holding a patrol boat, a hit
and a miss survives the encode/decode round trip. -/
theorem c5_witness :
    set_state (generate_board 10 "~")
      (get_state [["P", "P", "~", "~", "~", "~", "~", "~", "~", "~"],
                  ["~", "X", "~", "~", "~", "~", "~", "~", "~", "~"],
                  ["~", "~", "@", "~", "~", "~", "~", "~", "~", "~"],
                  List.replicate 10 "~", List.replicate 10 "~",
                  List.replicate 10 "~", List.replicate 10 "~",
                  List.replicate 10 "~", List.replicate 10 "~",
                  List.replicate 10 "~"] "~") =
      .ok [["P", "P", "~", "~", "~", "~", "~", "~", "~", "~"],
           ["~", "X", "~", "~", "~", "~", "~", "~", "~", "~"],
           ["~", "~", "@", "~", "~", "~", "~", "~", "~", "~"],
           List.replicate 10 "~", List.replicate 10 "~",
           List.replicate 10 "~", List.replicate 10 "~",
           List.replicate 10 "~", List.replicate 10 "~",
           List.replicate 10 "~"] :=
  c5_decode_encode_round_trip _ (by rfl) (by decide)

end Warship

namespace Warship

/-! ### Claim C9: the win condition against the sparse encoding -/

theorem rowTriples_forall (P : String → Prop) (ri : Nat) :
    ∀ (row : List String) (k : Nat),
      (∀ t ∈ rowTriples ri k row, P t.1) ↔ (∀ v ∈ row, v ≠ "~" → P v) := by
  intro row
  induction row with
  | nil =>
    intro k
    simp [rowTriples]
  | cons x xs ih =>
    intro k
    unfold rowTriples
    rw [List.enumFrom_cons, List.filterMap_cons]
    have ihk := ih (k + 1)
    unfold rowTriples at ihk
    by_cases hx : x = "~"
    · rw [if_neg (by simp [hx])]
      rw [ihk]
      constructor
      · intro h v hv hne
        rcases List.mem_cons.mp hv with rfl | hv2
        · exact absurd hx hne
        · exact h v hv2 hne
      · intro h v hv hne
        exact h v (List.mem_cons_of_mem x hv) hne
    · rw [if_pos (by simp [hx])]
      constructor
      · intro h v hv hne
        rcases List.mem_cons.mp hv with rfl | hv2
        · exact h (v, (ri : Int), (k : Int)) (List.mem_cons_self _ _)
        · exact (ihk.mp fun t ht => h t (List.mem_cons_of_mem _ ht)) v hv2 hne
      · intro h t ht
        rcases List.mem_cons.mp ht with rfl | ht2
        · exact h x (List.mem_cons_self x xs) hx
        · exact (ihk.mpr fun v hv hne => h v (List.mem_cons_of_mem x hv) hne) t ht2

theorem get_state_forall (P : String → Prop) :
    ∀ (rows : List (List String)) (k : Nat),
      (∀ t ∈ (((rows.enumFrom k).map fun p => rowTriples p.1 0 p.2)).flatten, P t.1) ↔
      (∀ v ∈ rows.flatten, v ≠ "~" → P v) := by
  intro rows
  induction rows with
  | nil =>
    intro k
    simp
  | cons row rest ih =>
    intro k
    rw [List.enumFrom_cons, List.map_cons, List.flatten_cons, List.flatten_cons]
    constructor
    · intro h v hv hne
      rcases List.mem_append.mp hv with hv1 | hv2
      · exact (rowTriples_forall P k row 0).mp
          (fun t ht => h t (List.mem_append_left _ ht)) v hv1 hne
      · exact ((ih (k + 1)).mp fun t ht => h t (List.mem_append_right _ ht)) v hv2 hne
    · intro h t ht
      rcases List.mem_append.mp ht with ht1 | ht2
      · exact (rowTriples_forall P k row 0).mpr
          (fun v hv hne => h v (List.mem_append_left _ hv) hne) t ht1
      · exact ((ih (k + 1)).mpr fun v hv hne => h v (List.mem_append_right _ hv) hne) t ht2

/-- Claim C9. For every board over the engine's cell alphabet,
`win_condition` is true iff no cell is an intact ship cell, which is also
equivalent to the sparse encoding `get_state` carrying only the `"X"`
(Hit) and `"@"` (Miss) sentinel markers. -/
theorem c9_win_iff_no_ship_markers (board : Board)
    (halpha : ∀ v ∈ board.flatten,
      v ∈ (["A", "B", "S", "D", "P", "X", "@", "~"] : List String)) :
    (win_condition board ["X", "@", "~"] = true ↔
      ∀ v ∈ board.flatten, v ∉ (["A", "B", "S", "D", "P"] : List String)) ∧
    (win_condition board ["X", "@", "~"] = true ↔
      ∀ t ∈ get_state board "~", t.1 = "X" ∨ t.1 = "@") := by
  have hwin : win_condition board ["X", "@", "~"] = true ↔
      ∀ v ∈ board.flatten, v = "X" ∨ v = "@" ∨ v = "~" := by
    unfold win_condition
    rw [List.all_eq_true]
    constructor
    · intro h v hv
      have := h v hv
      rw [List.elem_iff] at this
      simpa using this
    · intro h v hv
      rw [List.elem_iff]
      rcases h v hv with rfl | rfl | rfl <;> simp
  constructor
  · rw [hwin]
    constructor
    · intro h v hv hm
      rcases h v hv with rfl | rfl | rfl <;> simp at hm
    · intro h v hv
      have ha := halpha v hv
      have hs := h v hv
      simp only [List.mem_cons, List.not_mem_nil, or_false] at ha
      rcases ha with rfl | rfl | rfl | rfl | rfl | rfl | rfl | rfl <;> simp_all
  · rw [hwin]
    have hgs := get_state_forall (fun v => v = "X" ∨ v = "@") board 0
    have hform : get_state board "~" =
        (((board.enumFrom 0).map fun p => rowTriples p.1 0 p.2)).flatten := rfl
    constructor
    · intro h
      rw [hform]
      apply hgs.mpr
      intro v hv hne
      rcases h v hv with rfl | rfl | rfl
      · exact Or.inl rfl
      · exact Or.inr rfl
      · exact absurd rfl hne
    · intro h v hv
      by_cases hne : v = "~"
      · exact Or.inr (Or.inr hne)
      · rw [hform] at h
        rcases hgs.mp h v hv hne with rfl | rfl
        · exact Or.inl rfl
        · exact Or.inr (Or.inl rfl)

/-- Witness for C9: on a fully-resolved 2×2 board the win condition holds,
derived through the encoding characterization. -/
theorem c9_witness :
    win_condition ([["X", "@"], ["~", "~"]] : Board) ["X", "@", "~"] = true :=
  ((c9_win_iff_no_ship_markers [["X", "@"], ["~", "~"]] (by decide)).1).mpr (by decide)

end Warship

namespace Warship

/-! ### Claim C8: successful placements write exactly the run -/

/-- Pointwise effect of the placement write loop over in-range cells:
run cells read back as the ship marker, all others keep their value. -/
theorem writeRun_chars (ship : String) :
    ∀ (cells : List (Int × Int)) (b b2 : Board),
      b.length = 10 → (∀ rw ∈ b, rw.length = 10) →
      (∀ t ∈ cells, ∃ rn cn : Nat, t = ((rn : Int), (cn : Int)) ∧ rn < 10 ∧ cn < 10) →
      writeRun ship b cells = some b2 →
      b2.length = 10 ∧ (∀ rw ∈ b2, rw.length = 10) ∧
      ∀ r c : Nat, r < 10 → c < 10 →
        cellN b2 r c = if ((r : Int), (c : Int)) ∈ cells then ship else cellN b r c := by
  intro cells
  induction cells with
  | nil =>
    intro b b2 hb hrows hcells hw
    injection hw with hw
    subst hw
    refine ⟨hb, hrows, ?_⟩
    intro r c _ _
    rw [if_neg (by simp)]
  | cons t rest ih =>
    intro b b2 hb hrows hcells hw
    obtain ⟨rn, cn, rfl, hrn, hcn⟩ := hcells t (List.mem_cons_self _ _)
    have hrowlen : (b.getD rn []).length = 10 :=
      hrows _ (getD_mem [] b rn (by omega))
    have hpy : pySetCell b (rn : Int) (cn : Int) ship =
        some (setCellN b rn cn ship) := pySetCell_nat ship (by omega) (by omega)
    unfold writeRun at hw
    rw [hpy, Option.some_bind] at hw
    have hnext := ih (setCellN b rn cn ship) b2
      (by rw [length_setCellN, hb])
      (by
        intro rw hrw
        rcases List.mem_or_eq_of_mem_set hrw with hmem | heq
        · exact hrows rw hmem
        · rw [heq, List.length_set]
          exact hrowlen)
      (fun t ht => hcells t (List.mem_cons_of_mem _ ht))
      hw
    obtain ⟨hl2, hr2, hpt⟩ := hnext
    refine ⟨hl2, hr2, ?_⟩
    intro r c hr hc
    rw [hpt r c hr hc]
    by_cases hmem : ((r : Int), (c : Int)) ∈ rest
    · rw [if_pos hmem, if_pos (List.mem_cons_of_mem _ hmem)]
    · rw [if_neg hmem]
      by_cases heq : r = rn ∧ c = cn
      · obtain ⟨rfl, rfl⟩ := heq
        rw [if_pos (List.mem_cons_self _ _)]
        exact cellN_setCellN_self ship (by omega) (by omega)
      · have hne : ¬((r : Int), (c : Int)) = ((rn : Int), (cn : Int)) := by
          intro hcon
          apply heq
          obtain ⟨h1, h2⟩ := Prod.mk.injEq _ _ _ _ |>.mp hcon
          exact ⟨by exact_mod_cast h1, by exact_mod_cast h2⟩
        rw [if_neg (by
          intro hcon
          rcases List.mem_cons.mp hcon with hcon1 | hcon2
          · exact hne hcon1
          · exact hmem hcon2)]
        apply cellN_setCellN_ne
        by_cases h1 : rn = r
        · subst h1
          right
          intro h2
          exact heq ⟨rfl, h2.symm⟩
        · exact Or.inl h1

end Warship

namespace Warship

/-- Claim C8. For every 10×10 board, catalog ship, in-bounds coordinate
and recognized orientation on which `place_ship` succeeds, the resulting
board holds the ship's marker on exactly the contiguous run of
`len = SHIPS_LEN[ship]` cells starting at `(row, col)` in the given
orientation, every cell outside the run keeps its prior value, and the
run lies fully in bounds. -/
theorem c8_successful_placement_frame (board : Board) (ship orient : String)
    (row col len : Nat) (b2 : Board)
    (hb : board.length = 10) (hrows : ∀ rw ∈ board, rw.length = 10)
    (hrw : row < 10) (hcl : col < 10)
    (hlen : shipsLen? ship = some len)
    (hsucc : place_ship (row : Int) (col : Int) board ship orient "~" = .ok (true, b2)) :
    (orient = "v" →
      row + len ≤ 10 ∧
      (∀ i : Nat, i < len → cellN b2 (row + i) col = ship) ∧
      (∀ r c : Nat, r < 10 → c < 10 → ¬(c = col ∧ row ≤ r ∧ r < row + len) →
        cellN b2 r c = cellN board r c)) ∧
    (orient = "h" →
      col + len ≤ 10 ∧
      (∀ i : Nat, i < len → cellN b2 row (col + i) = ship) ∧
      (∀ r c : Nat, r < 10 → c < 10 → ¬(r = row ∧ col ≤ c ∧ c < col + len) →
        cellN b2 r c = cellN board r c)) ∧
    (orient = "v" ∨ orient = "h") := by
  unfold place_ship at hsucc
  rw [hlen] at hsucc
  dsimp only at hsucc
  cases hv : validate_bounds board row col len orient "~" with
  | error e => rw [hv] at hsucc; cases hsucc
  | ok valid =>
    rw [hv] at hsucc
    cases valid with
    | false =>
      dsimp only at hsucc
      rw [if_pos (show (!false) = true by rfl)] at hsucc
      injection hsucc with h1
      exact absurd (congrArg Prod.fst h1) (by simp)
    | true =>
      dsimp only at hsucc
      rw [if_neg (show ¬(!true) = true by simp)] at hsucc
      by_cases hov : (orient == "v") = true
      · have hoveq : orient = "v" := by simpa using hov
        rw [if_pos hov] at hsucc
        have hbound : (row : Int) + (len : Int) < 10 := by
          by_cases hd : (row : Int) + (len : Int) < 10
          · exact hd
          · exfalso
            unfold validate_bounds at hv
            rw [if_neg (by simp [hov, hd])] at hv
            rw [if_neg (by simp [hoveq])] at hv
            rw [if_neg (by simp [hov])] at hv
            rw [if_pos (by simp; omega)] at hv
            cases hv
        cases hwr : writeRun ship board (vRun (row : Int) (col : Int) len) with
        | none => rw [hwr] at hsucc; cases hsucc
        | some b3 =>
          rw [hwr] at hsucc
          injection hsucc with h1
          have hb23 : b2 = b3 := ((Prod.mk.injEq _ _ _ _).mp h1).2.symm
          subst hb23
          have hcells : ∀ t ∈ vRun (row : Int) (col : Int) len,
              ∃ rn cn : Nat, t = ((rn : Int), (cn : Int)) ∧ rn < 10 ∧ cn < 10 := by
            intro t ht
            unfold vRun at ht
            rw [List.mem_map] at ht
            obtain ⟨i, hi, rfl⟩ := ht
            rw [List.mem_range] at hi
            exact ⟨row + i, col, by simp, by omega, hcl⟩
          obtain ⟨hl2, hr2, hpt⟩ :=
            writeRun_chars ship (vRun (row : Int) (col : Int) len) board b2
              hb hrows hcells hwr
          refine ⟨?_, ?_, Or.inl hoveq⟩
          · intro _
            refine ⟨by omega, ?_, ?_⟩
            · intro i hi
              rw [hpt (row + i) col (by omega) hcl, if_pos ?_]
              unfold vRun
              rw [List.mem_map]
              exact ⟨i, List.mem_range.mpr hi, by simp⟩
            · intro r c hr hc hout
              rw [hpt r c hr hc, if_neg ?_]
              intro hcon
              unfold vRun at hcon
              rw [List.mem_map] at hcon
              obtain ⟨i, hi, heq⟩ := hcon
              rw [List.mem_range] at hi
              obtain ⟨h1, h2⟩ := Prod.mk.injEq _ _ _ _ |>.mp heq.symm
              apply hout
              refine ⟨by exact_mod_cast h2, ?_, ?_⟩ <;> omega
          · intro hcon
            exact absurd (hoveq.symm.trans hcon) (by decide)
      · rw [if_neg hov] at hsucc
        by_cases hoh : (orient == "h") = true
        · have hoheq : orient = "h" := by simpa using hoh
          rw [if_pos hoh] at hsucc
          have hbound : (col : Int) + (len : Int) < 10 := by
            by_cases hd : (col : Int) + (len : Int) < 10
            · exact hd
            · exfalso
              unfold validate_bounds at hv
              rw [if_neg (by simp [hoheq])] at hv
              rw [if_neg (by simp [hoh, hd])] at hv
              rw [if_neg (by simp [hoh])] at hv
              rw [if_pos (by simp; omega)] at hv
              cases hv
          cases hwr : writeRun ship board (hRun (row : Int) (col : Int) len) with
          | none => rw [hwr] at hsucc; cases hsucc
          | some b3 =>
            rw [hwr] at hsucc
            injection hsucc with h1
            have hb23 : b2 = b3 := ((Prod.mk.injEq _ _ _ _).mp h1).2.symm
            subst hb23
            have hcells : ∀ t ∈ hRun (row : Int) (col : Int) len,
                ∃ rn cn : Nat, t = ((rn : Int), (cn : Int)) ∧ rn < 10 ∧ cn < 10 := by
              intro t ht
              unfold hRun at ht
              rw [List.mem_map] at ht
              obtain ⟨i, hi, rfl⟩ := ht
              rw [List.mem_range] at hi
              exact ⟨row, col + i, by simp, hrw, by omega⟩
            obtain ⟨hl2, hr2, hpt⟩ :=
              writeRun_chars ship (hRun (row : Int) (col : Int) len) board b2
                hb hrows hcells hwr
            refine ⟨?_, ?_, Or.inr hoheq⟩
            · intro hcon
              exact absurd (hoheq.symm.trans hcon) (by decide)
            · intro _
              refine ⟨by omega, ?_, ?_⟩
              · intro i hi
                rw [hpt row (col + i) hrw (by omega), if_pos ?_]
                unfold hRun
                rw [List.mem_map]
                exact ⟨i, List.mem_range.mpr hi, by simp⟩
              · intro r c hr hc hout
                rw [hpt r c hr hc, if_neg ?_]
                intro hcon
                unfold hRun at hcon
                rw [List.mem_map] at hcon
                obtain ⟨i, hi, heq⟩ := hcon
                rw [List.mem_range] at hi
                obtain ⟨h1, h2⟩ := Prod.mk.injEq _ _ _ _ |>.mp heq.symm
                apply hout
                refine ⟨by exact_mod_cast h1, ?_, ?_⟩ <;> omega
        · rw [if_neg hoh] at hsucc
          cases hsucc

end Warship

namespace Warship

/-- The board produced by successfully placing the patrol boat
horizontally at `(0,7)` on an empty board. -/
def boardPatrol : Board :=
  [["~", "~", "~", "~", "~", "~", "~", "P", "P", "~"],
   List.replicate 10 "~", List.replicate 10 "~", List.replicate 10 "~",
   List.replicate 10 "~", List.replicate 10 "~", List.replicate 10 "~",
   List.replicate 10 "~", List.replicate 10 "~", List.replicate 10 "~"]

/-- Witness for C8: the successful placement of `"P"` at `(0,7)` occupies
exactly `(0,7)` and `(0,8)` and leaves an away cell untouched. -/
theorem c8_witness :
    cellN boardPatrol 0 7 = "P" ∧ cellN boardPatrol 0 8 = "P" ∧
    cellN boardPatrol 3 3 = cellN (generate_board 10 "~") 3 3 := by
  have h := c8_successful_placement_frame (generate_board 10 "~") "P" "h" 0 7 2
    boardPatrol (by rfl) (by decide) (by decide) (by decide) (by rfl) (by rfl)
  obtain ⟨-, hh, -⟩ := h
  obtain ⟨-, hrun, hframe⟩ := hh rfl
  refine ⟨?_, ?_, hframe 3 3 (by decide) (by decide) (by decide)⟩
  · simpa using hrun 0 (by decide)
  · simpa using hrun 1 (by decide)

end Warship
